import Mathlib

/-!
Shallow embedding of `huff-snark-verifier` (`src/huffv.rs`).

The embedded definitions mirror the Rust source:
* `encode_num` (huffv.rs lines 179-190) encodes one decimal string as a
  32-byte (64-hex-char) string, panicking on parse failure (the `expect`
  on line 180) and on a value longer than 64 hex digits (the unguarded
  `64 - encoded.len()` usize subtraction on line 186, which panics in
  both debug and release profiles).
* `VerificationKey.to_packed` (lines 66-96) packs a verification key.
* The memory-layout constants computed inline in `main` (lines 124-150).

Rust `Vec` indexing panics out of bounds; panics are modelled as
`Except.error (RErr.panic msg)`.  All strings involved are ASCII, so
Rust's byte length coincides with Lean's `String.length`.
-/

/-- Errors of the embedded program.  The source only ever panics
(`RErr.panic`); the remaining constructors are modelled from the spec
(section 7 error taxonomy: `MalformedFieldElement`, `FieldElementOverflow`,
`EmptyVerificationKey`), which the source never produces.  They exist so
that claims about the spec's error taxonomy can be stated and compared
with what the source actually does. -/
inductive RErr where
  | panic (msg : String)
  | malformedFieldElement
  | fieldElementOverflow
  | emptyVerificationKey
deriving DecidableEq, Repr

deriving instance DecidableEq for Except

/-- Fuel-driven little-endian base-`b` digit extraction; with fuel at least
`n` it agrees with `Nat.digits b n` (see `toDigitsRevF_eq_digits`).  Written
with structural recursion on the fuel so that it evaluates in the kernel. -/
def toDigitsRevF (b : Nat) : Nat → Nat → List Nat
  | _, 0 => []
  | 0, _ + 1 => []
  | f + 1, n + 1 => ((n + 1) % b) :: toDigitsRevF b f ((n + 1) / b)

/-- Little-endian base-`b` digits of `n` (empty for `n = 0`). -/
def natDigitsRev (b n : Nat) : List Nat :=
  toDigitsRevF b n n

/-- Big-endian minimal lowercase hex rendering of a natural number, as
produced by ibig's `in_radix(16).to_string()` on a non-negative value:
`"0"` for zero, otherwise the digits most-significant first with no
leading zeros. -/
def natToHex (n : Nat) : String :=
  if n = 0 then "0"
  else String.mk (((natDigitsRev 16 n).map Nat.digitChar).reverse)

/-- Big-endian decimal rendering of a natural number, as produced by
Rust's `usize::to_string`. -/
def natToDec (n : Nat) : String :=
  if n = 0 then "0"
  else String.mk (((natDigitsRev 10 n).map Nat.digitChar).reverse)

/-- Rendering of a signed big integer in base 16, as produced by ibig's
`in_radix(16).to_string()`: a `-` sign followed by the magnitude when the
value is negative. -/
def intToHexString (v : Int) : String :=
  if v < 0 then "-" ++ natToHex v.natAbs else natToHex v.natAbs

/-- Whether a character is a decimal digit. -/
def isDigitChar (c : Char) : Bool :=
  c.isDigit

/-- Numeric value of a decimal digit character. -/
def decCharVal (c : Char) : Nat :=
  c.toNat - 48

/-- Value of a non-empty all-digit character list read in base 10;
`none` otherwise. -/
def decDigitsVal (l : List Char) : Option Nat :=
  if l = [] then none
  else if l.all isDigitChar then
    some (l.foldl (fun a c => 10 * a + decCharVal c) 0)
  else none

/-- Decimal parsing as performed by `IBig::from_str_radix(n, 10)`: an
optional `+`/`-` sign followed by at least one decimal digit. -/
def parseDecimal (s : String) : Option Int :=
  match s.data with
  | '+' :: rest => (decDigitsVal rest).map (fun n => (n : Int))
  | '-' :: rest => (decDigitsVal rest).map (fun n => -(n : Int))
  | l => (decDigitsVal l).map (fun n => (n : Int))

/-- `encode_num` (huffv.rs lines 179-190).  Parses the decimal string
(panicking like the source's `expect` when parsing fails), renders it in
base 16, and left-pads with `'0'` to 64 characters.  When the rendering is
longer than 64 characters the source's `64 - encoded.len()` underflows and
panics (debug profile: "attempt to subtract with overflow"; the release
profile also panics, inside `str::repeat`). -/
def encode_num (n : String) : Except RErr String :=
  match parseDecimal n with
  | none => .error (.panic "Failed to parse verification key.")
  | some v =>
    let encoded := intToHexString v
    if encoded.length = 64 then .ok encoded
    else if encoded.length > 64 then
      .error (.panic "attempt to subtract with overflow")
    else .ok (String.mk (List.replicate (64 - encoded.length) '0') ++ encoded)

/-- Numeric value of a hexadecimal digit character (0 for other
characters). -/
def hexCharVal (c : Char) : Nat :=
  if c.isDigit then c.toNat - 48
  else if 'a' ≤ c && c ≤ 'f' then c.toNat - 87
  else if 'A' ≤ c && c ≤ 'F' then c.toNat - 55
  else 0

/-- Reads a string of hexadecimal digits back as a natural number
(base-16, most significant first). -/
def hexStringToNat (s : String) : Nat :=
  s.data.foldl (fun a c => 16 * a + hexCharVal c) 0

/-- Whether a character is a lowercase hexadecimal digit. -/
def isLowerHexDigit (c : Char) : Bool :=
  c.isDigit || ('a' ≤ c && c ≤ 'f')

/-- The SNARK verification key record (huffv.rs lines 44-61), as
deserialized from snarkjs JSON.  Field elements stay in their external
decimal-string form, exactly as the Rust struct holds them. -/
structure VerificationKey where
  n_public : Nat
  vk_alpha_1 : List String
  vk_beta_2 : List (List String)
  vk_gamma_2 : List (List String)
  vk_delta_2 : List (List String)
  vk_alphabeta_12 : List (List (List String))
  ic : List (List String)
deriving DecidableEq, Repr

/-- Rust `Vec` indexing `xs[i]`: the element when in bounds, otherwise an
index-out-of-bounds panic. -/
def vecIdx {α : Type} (xs : List α) (i : Nat) : Except RErr α :=
  match xs.get? i with
  | some x => .ok x
  | none => .error (.panic "index out of bounds")

/-- `encode_num(&xs[i])`: index then encode, in the source's evaluation
order. -/
def getEnc (xs : List String) (i : Nat) : Except RErr String := do
  let s ← vecIdx xs i
  encode_num s

/-- `encode_num(&xs[i][j])` for a doubly nested vector. -/
def getEnc2 (xs : List (List String)) (i j : Nat) : Except RErr String := do
  let row ← vecIdx xs i
  let s ← vecIdx row j
  encode_num s

/-- The IC loop of `to_packed` (huffv.rs lines 89-92): for each IC point in
sequence order, append the encodings of its `[0]` (x) and `[1]` (y)
entries. -/
def packICs : List (List String) → Except RErr String
  | [] => .ok ""
  | p :: rest => do
    let x ← getEnc p 0
    let y ← getEnc p 1
    let r ← packICs rest
    .ok (x ++ y ++ r)

/-- `VerificationKey::to_packed` (huffv.rs lines 66-96): the `format!`
with the fourteen fixed header encodings in source order, then the
encoding of the decimal IC count, then the IC loop. -/
def VerificationKey.to_packed (vk : VerificationKey) : Except RErr String := do
  let a0 ← getEnc vk.vk_alpha_1 0
  let a1 ← getEnc vk.vk_alpha_1 1
  let b01 ← getEnc2 vk.vk_beta_2 0 1
  let b00 ← getEnc2 vk.vk_beta_2 0 0
  let b11 ← getEnc2 vk.vk_beta_2 1 1
  let b10 ← getEnc2 vk.vk_beta_2 1 0
  let g01 ← getEnc2 vk.vk_gamma_2 0 1
  let g00 ← getEnc2 vk.vk_gamma_2 0 0
  let g11 ← getEnc2 vk.vk_gamma_2 1 1
  let g10 ← getEnc2 vk.vk_gamma_2 1 0
  let d01 ← getEnc2 vk.vk_delta_2 0 1
  let d00 ← getEnc2 vk.vk_delta_2 0 0
  let d11 ← getEnc2 vk.vk_delta_2 1 1
  let d10 ← getEnc2 vk.vk_delta_2 1 0
  let cnt ← encode_num (natToDec vk.ic.length)
  let tail ← packICs vk.ic
  .ok ("0x" ++ a0 ++ a1 ++ b01 ++ b00 ++ b11 ++ b10 ++ g01 ++ g00 ++ g11
    ++ g10 ++ d01 ++ d00 ++ d11 ++ d10 ++ cnt ++ tail)

/-- The offset bases for pairing inputs (huffv.rs lines 19-21). -/
def PI_OFFSET_BASES : List Nat :=
  [0x00, 0x20, 0x40, 0x60, 0x80, 0xA0, 0xC0, 0x180, 0x1A0, 0x1C0, 0x240,
    0x260, 0x280]

/-- `{{IC_BYTES}}` (huffv.rs line 126): byte span of the IC table. -/
def ic_byte_span (n : Nat) : Nat :=
  n * 0x40

/-- `pairing_input_offset` (huffv.rs line 129). -/
def pairing_input_offset (n : Nat) : Nat :=
  0xC0 + n * 0x40

/-- The thirteen absolute pairing-input offsets `{{pi_i}}`
(huffv.rs lines 130-136). -/
def pairingOffsets (n : Nat) : List Nat :=
  PI_OFFSET_BASES.map (fun b => pairing_input_offset n + b)

/-- `input_ptr` (huffv.rs line 139). -/
def input_ptr (n : Nat) : Nat :=
  pairing_input_offset n + 0x300

/-- `{{PUB_INPUT_LEN_PTR}}` (huffv.rs line 141). -/
def pub_input_len_ptr (n : Nat) : Nat :=
  input_ptr n + 0x100

/-- `{{PUB_INPUT_PTR}}` (huffv.rs line 143). -/
def pub_input_ptr (n : Nat) : Nat :=
  input_ptr n + 0x120

/-- The eight public-input slot offsets `{{in_i}}`
(huffv.rs lines 144-150). -/
def inputSlots (n : Nat) : List Nat :=
  (List.range 8).map (fun i => input_ptr n + i * 0x20)

/-- The decimal rendering of 2^256, the smallest non-negative integer whose
hexadecimal rendering needs more than 64 digits. -/
def decTwo256 : String :=
  "115792089237316195423570985008687907853269984665640564039457584007913129639936"

/-- The 64-character encoding of the field element "1". -/
def encOne : String :=
  String.mk (List.replicate 63 '0') ++ "1"

/-- Concrete well-shaped key (all elements "1", one IC point) used to
instantiate C1. -/
def vkC1W : VerificationKey :=
  ⟨0, ["1", "1"], [["1", "1"], ["1", "1"]], [["1", "1"], ["1", "1"]],
    [["1", "1"], ["1", "1"]], [], [["1", "1"]]⟩

/-- Concrete well-shaped key (all elements "0", empty IC list) used to
instantiate C5. -/
def vkC5W : VerificationKey :=
  ⟨0, ["0", "0"], [["0", "0"], ["0", "0"]], [["0", "0"], ["0", "0"]],
    [["0", "0"], ["0", "0"]], [], []⟩

/-- Concrete well-shaped key (all elements "0", one IC point) used for C6. -/
def vkC6W : VerificationKey :=
  ⟨0, ["0", "0"], [["0", "0"], ["0", "0"]], [["0", "0"], ["0", "0"]],
    [["0", "0"], ["0", "0"]], [], [["0", "0"]]⟩

/-- Concrete key with every collection empty, used for C8. -/
def vkC8W : VerificationKey :=
  ⟨0, [], [], [], [], [], ([] : List (List String))⟩

/-- Concrete key used for C9. -/
def vkC9A : VerificationKey :=
  ⟨0, ["1", "2"], [["3", "4"], ["5", "6"]], [["7", "8"], ["9", "10"]],
    [["11", "12"], ["13", "14"]], [], [["15", "16"]]⟩

/-- The same key as `vkC9A` except for `n_public` and `vk_alphabeta_12`,
used for C9. -/
def vkC9B : VerificationKey :=
  ⟨42, ["1", "2"], [["3", "4"], ["5", "6"]], [["7", "8"], ["9", "10"]],
    [["11", "12"], ["13", "14"]], [[["99"]]], [["15", "16"]]⟩

/-- The shape the packer requires of a G2 field: the index accesses it
performs (`[0][1]`, `[0][0]`, `[1][1]`, `[1][0]`, huffv.rs lines 72-83) all
exist, i.e. at least two rows whose first two rows each have at least two
elements.  A field with fewer rows or elements than this stated 2×2 shape
is "missing a required coordinate". -/
def g2Shaped (xs : List (List String)) : Prop :=
  match xs with
  | r0 :: r1 :: _ => 2 ≤ r0.length ∧ 2 ≤ r1.length
  | _ => False

/-- Concrete key with a partially missing shape, used for C8: beta2 has a
single row instead of the required two, while every other field is
well-shaped. -/
def vkC8P : VerificationKey :=
  ⟨0, ["1", "1"], [["1", "2"]], [["1", "1"], ["1", "1"]],
    [["1", "1"], ["1", "1"]], [], [["1", "1"]]⟩

/-! ### Basic string and bind lemmas -/

theorem strData_append (u w : String) : (u ++ w).data = u.data ++ w.data := by
  cases u
  cases w
  rfl

theorem strLength_data (s : String) : s.length = s.data.length := rfl

theorem strLength_append (u w : String) :
    (u ++ w).length = u.length + w.length := by
  rw [strLength_data, strData_append, List.length_append]
  rfl

theorem strMk_append (l : List Char) (s : String) :
    String.mk l ++ s = String.mk (l ++ s.data) := by
  cases s
  rfl

theorem strMk_nil_append (s : String) : String.mk [] ++ s = s := by
  cases s
  simp [strMk_append]

theorem strAppend_assoc (a b c : String) :
    a ++ b ++ c = a ++ (b ++ c) := by
  cases a
  cases b
  cases c
  show String.mk _ = String.mk _
  simp [strData_append, List.append_assoc]

theorem exceptBind_ok {σ τ : Type} (x : σ) (k : σ → Except RErr τ) :
    (Except.ok x >>= k) = k x := rfl

theorem exceptBind_error {σ τ : Type} (e : RErr) (k : σ → Except RErr τ) :
    ((Except.error e : Except RErr σ) >>= k) = Except.error e := rfl

theorem exceptBind_eq_ok {σ τ : Type} {me : Except RErr σ}
    {k : σ → Except RErr τ} {y : τ} (h : (me >>= k) = .ok y) :
    ∃ x, me = .ok x ∧ k x = .ok y := by
  cases me with
  | ok x => exact ⟨x, rfl, by simpa [exceptBind_ok] using h⟩
  | error e => simp [exceptBind_error] at h

theorem exceptBind_eq_error {σ τ : Type} {me : Except RErr σ}
    {k : σ → Except RErr τ} {e : RErr} (h : (me >>= k) = .error e) :
    me = .error e ∨ ∃ x, me = .ok x ∧ k x = .error e := by
  cases me with
  | ok x => exact Or.inr ⟨x, rfl, by simpa [exceptBind_ok] using h⟩
  | error e0 => simp_all [exceptBind_error]

/-! ### Digit-extraction bridge to Nat.digits -/

theorem toDigitsRevF_eq_digits {b : Nat} (hb : 2 ≤ b) :
    ∀ f n, n ≤ f → toDigitsRevF b f n = Nat.digits b n := by
  intro f
  induction f with
  | zero =>
    intro n hn
    interval_cases n
    simp [toDigitsRevF]
  | succ f ih =>
    intro n hn
    match n with
    | 0 => simp [toDigitsRevF]
    | m + 1 =>
      have hdiv : (m + 1) / b < m + 1 := Nat.div_lt_self (Nat.succ_pos m) hb
      have hle : (m + 1) / b ≤ f := by omega
      rw [show toDigitsRevF b (f + 1) (m + 1)
            = ((m + 1) % b) :: toDigitsRevF b f ((m + 1) / b) from rfl,
        ih _ hle, ← Nat.digits_def' (by omega : 1 < b) (Nat.succ_pos m)]

theorem natDigitsRev_eq {b : Nat} (hb : 2 ≤ b) (n : Nat) :
    natDigitsRev b n = Nat.digits b n :=
  toDigitsRevF_eq_digits hb n n le_rfl

/-! ### Character facts -/

theorem hexCharVal_digitChar : ∀ d, d < 16 → hexCharVal (Nat.digitChar d) = d := by
  decide

theorem isLowerHexDigit_digitChar :
    ∀ d, d < 16 → isLowerHexDigit (Nat.digitChar d) = true := by
  decide

theorem digitChar_ne_x : ∀ d, d < 16 → Nat.digitChar d ≠ 'x' := by
  decide

/-! ### Shape of natToHex and intToHexString -/

theorem strMk_data (s : String) : String.mk s.data = s := by
  cases s
  rfl

theorem natToHex_data {n : Nat} (hn : n ≠ 0) :
    (natToHex n).data = ((Nat.digits 16 n).map Nat.digitChar).reverse := by
  rw [natToHex, if_neg hn, natDigitsRev_eq (by norm_num)]

theorem natToHex_length {n : Nat} (hn : n ≠ 0) :
    (natToHex n).length = (Nat.digits 16 n).length := by
  rw [strLength_data, natToHex_data hn, List.length_reverse, List.length_map]

theorem natToHex_chars (n : Nat) :
    ∀ c ∈ (natToHex n).data, c = '0' ∨ ∃ d, d < 16 ∧ c = Nat.digitChar d := by
  intro c hc
  by_cases hn : n = 0
  · subst hn
    have : (natToHex 0).data = ['0'] := rfl
    rw [this] at hc
    simp at hc
    exact Or.inl hc
  · rw [natToHex_data hn] at hc
    rw [List.mem_reverse, List.mem_map] at hc
    obtain ⟨d, hd, rfl⟩ := hc
    exact Or.inr ⟨d, Nat.digits_lt_base (by norm_num) hd, rfl⟩

theorem intToHexString_chars (v : Int) :
    ∀ c ∈ (intToHexString v).data,
      c = '0' ∨ c = '-' ∨ ∃ d, d < 16 ∧ c = Nat.digitChar d := by
  intro c hc
  rw [intToHexString] at hc
  by_cases hv : v < 0
  · rw [if_pos hv, strData_append] at hc
    rcases List.mem_append.mp hc with h | h
    · have : ("-" : String).data = ['-'] := rfl
      rw [this] at h
      simp at h
      exact Or.inr (Or.inl h)
    · rcases natToHex_chars _ c h with h0 | hd
      · exact Or.inl h0
      · exact Or.inr (Or.inr hd)
  · rw [if_neg hv] at hc
    rcases natToHex_chars _ c hc with h0 | hd
    · exact Or.inl h0
    · exact Or.inr (Or.inr hd)

/-! ### Inverting a successful encode_num -/

theorem encode_ok_inv {s t : String} (h : encode_num s = .ok t) :
    ∃ v, parseDecimal s = some v ∧ (intToHexString v).length ≤ 64 ∧
      t = String.mk (List.replicate (64 - (intToHexString v).length) '0'
            ++ (intToHexString v).data) := by
  rw [encode_num] at h
  cases hp : parseDecimal s with
  | none => rw [hp] at h; cases h
  | some v =>
    rw [hp] at h
    simp only at h
    refine ⟨v, rfl, ?_⟩
    by_cases h64 : (intToHexString v).length = 64
    · rw [if_pos h64] at h
      cases h
      refine ⟨by omega, ?_⟩
      rw [h64, Nat.sub_self, List.replicate_zero, List.nil_append, strMk_data]
    · rw [if_neg h64] at h
      by_cases hgt : (intToHexString v).length > 64
      · rw [if_pos hgt] at h
        cases h
      · rw [if_neg hgt] at h
        cases h
        exact ⟨by omega, (strMk_append _ _).symm ▸ rfl⟩

theorem encode_ok_length {s t : String} (h : encode_num s = .ok t) :
    t.length = 64 := by
  obtain ⟨v, _, hle, rfl⟩ := encode_ok_inv h
  rw [strLength_data]
  simp only [List.length_append, List.length_replicate]
  have : (intToHexString v).data.length = (intToHexString v).length := rfl
  omega

theorem encode_ok_chars {s t : String} (h : encode_num s = .ok t) :
    ∀ c ∈ t.data, c = '0' ∨ c = '-' ∨ ∃ d, d < 16 ∧ c = Nat.digitChar d := by
  obtain ⟨v, _, _, rfl⟩ := encode_ok_inv h
  intro c hc
  rcases List.mem_append.mp hc with h0 | hm
  · exact Or.inl (List.eq_of_mem_replicate h0)
  · exact intToHexString_chars v c hm

theorem encode_ok_ne_x {s t : String} (h : encode_num s = .ok t) :
    ∀ c ∈ t.data, c ≠ 'x' := by
  intro c hc
  rcases encode_ok_chars h c hc with rfl | rfl | ⟨d, hd, rfl⟩
  · decide
  · decide
  · exact digitChar_ne_x d hd

/-! ### Reading the encoding back (base 16) -/

theorem foldl_hex_replicate (fp a : Nat) :
    List.foldl (fun x c => 16 * x + hexCharVal c) a (List.replicate fp '0')
      = a * 16 ^ fp := by
  induction fp generalizing a with
  | zero => simp
  | succ fp ihp =>
    rw [List.replicate_succ, List.foldl_cons, ihp]
    have h0 : hexCharVal '0' = 0 := rfl
    rw [h0]
    ring

theorem foldl_hex_digits (dl : List Nat) (hdl : ∀ d ∈ dl, d < 16) (a : Nat) :
    List.foldl (fun x c => 16 * x + hexCharVal c) a ((dl.map Nat.digitChar).reverse)
      = a * 16 ^ dl.length + Nat.ofDigits 16 dl := by
  induction dl generalizing a with
  | nil => simp
  | cons dg dr ihd =>
    rw [List.map_cons, List.reverse_cons, List.foldl_append, List.foldl_cons,
      List.foldl_nil, ihd (fun x hx => hdl x (List.mem_cons_of_mem dg hx)),
      hexCharVal_digitChar dg (hdl dg (List.mem_cons_self dg dr)),
      Nat.ofDigits_cons, List.length_cons]
    ring

theorem hexStringToNat_natToHex (n : Nat) : hexStringToNat (natToHex n) = n := by
  by_cases hn : n = 0
  · subst hn
    rfl
  · rw [hexStringToNat, natToHex_data hn,
      foldl_hex_digits _ (fun d hd => Nat.digits_lt_base (by norm_num) hd) 0,
      Nat.ofDigits_digits, Nat.zero_mul, Nat.zero_add]

/-! ### The encoder on in-range non-negative values -/

theorem intToHexString_nonneg {v : Int} (h0 : 0 ≤ v) :
    intToHexString v = natToHex v.natAbs := by
  rw [intToHexString, if_neg (by omega)]

theorem pow16_64 : (16 : Nat) ^ 64 = 2 ^ 256 := by
  norm_num [show (16 : Nat) = 2 ^ 4 from rfl, ← pow_mul]

theorem natAbs_lt_pow16 {v : Int} (h0 : 0 ≤ v) (hlt : v < 2 ^ 256) :
    v.natAbs < 16 ^ 64 := by
  rw [pow16_64]
  omega

theorem intToHexString_length_le {v : Int} (h0 : 0 ≤ v) (hlt : v < 2 ^ 256) :
    (intToHexString v).length ≤ 64 := by
  rw [intToHexString_nonneg h0]
  by_cases hn : v.natAbs = 0
  · rw [hn]
    decide
  · rw [natToHex_length hn]
    by_contra hlen
    push_neg at hlen
    have h1 : (16 : Nat) ^ (Nat.digits 16 v.natAbs).length ≤ 16 * v.natAbs :=
      Nat.base_pow_length_digits_le 16 v.natAbs (by norm_num) hn
    have h2 : (16 : Nat) ^ 65 ≤ 16 ^ (Nat.digits 16 v.natAbs).length :=
      Nat.pow_le_pow_right (by norm_num) hlen
    have h3 : v.natAbs < 16 ^ 64 := natAbs_lt_pow16 h0 hlt
    have h4 : (16 : Nat) ^ 65 = 16 * 16 ^ 64 := by ring
    omega

theorem encode_num_of_le {s : String} {v : Int} (hp : parseDecimal s = some v)
    (hlen : (intToHexString v).length ≤ 64) :
    encode_num s
      = .ok (String.mk (List.replicate (64 - (intToHexString v).length) '0'
          ++ (intToHexString v).data)) := by
  rw [encode_num, hp]
  simp only
  by_cases h64 : (intToHexString v).length = 64
  · rw [if_pos h64, h64, Nat.sub_self, List.replicate_zero, List.nil_append,
      strMk_data]
  · rw [if_neg h64, if_neg (by omega), strMk_append]

/-! ### Inversion of the packer's pieces -/

theorem getEnc_ok_inv {xs : List String} {i : Nat} {t : String}
    (h : getEnc xs i = .ok t) :
    ∃ s, xs.get? i = some s ∧ encode_num s = .ok t := by
  rw [getEnc] at h
  obtain ⟨s, hs, he⟩ := exceptBind_eq_ok h
  rw [vecIdx] at hs
  cases hg : xs.get? i with
  | none => rw [hg] at hs; cases hs
  | some x =>
    rw [hg] at hs
    have hxs : x = s := Except.ok.inj hs
    subst hxs
    exact ⟨x, rfl, he⟩

theorem getEnc2_ok_inv {xs : List (List String)} {i j : Nat} {t : String}
    (h : getEnc2 xs i j = .ok t) :
    ∃ row s, xs.get? i = some row ∧ row.get? j = some s ∧
      encode_num s = .ok t := by
  rw [getEnc2] at h
  obtain ⟨row, hrow, h⟩ := exceptBind_eq_ok h
  rw [vecIdx] at hrow
  cases hg : xs.get? i with
  | none => rw [hg] at hrow; cases hrow
  | some r =>
    rw [hg] at hrow
    have hrr : r = row := Except.ok.inj hrow
    subst hrr
    obtain ⟨s, hs, he⟩ := getEnc_ok_inv h
    exact ⟨r, s, rfl, hs, he⟩

theorem getEnc_ok_length {xs : List String} {i : Nat} {t : String}
    (h : getEnc xs i = .ok t) : t.length = 64 := by
  obtain ⟨s, _, he⟩ := getEnc_ok_inv h
  exact encode_ok_length he

theorem getEnc2_ok_length {xs : List (List String)} {i j : Nat} {t : String}
    (h : getEnc2 xs i j = .ok t) : t.length = 64 := by
  obtain ⟨row, s, _, _, he⟩ := getEnc2_ok_inv h
  exact encode_ok_length he

theorem getEnc_ok_ne_x {xs : List String} {i : Nat} {t : String}
    (h : getEnc xs i = .ok t) : ∀ c ∈ t.data, c ≠ 'x' := by
  obtain ⟨s, _, he⟩ := getEnc_ok_inv h
  exact encode_ok_ne_x he

theorem getEnc2_ok_ne_x {xs : List (List String)} {i j : Nat} {t : String}
    (h : getEnc2 xs i j = .ok t) : ∀ c ∈ t.data, c ≠ 'x' := by
  obtain ⟨row, s, _, _, he⟩ := getEnc2_ok_inv h
  exact encode_ok_ne_x he

theorem packICs_ok_length {l : List (List String)} {t : String}
    (h : packICs l = .ok t) : t.length = l.length * 128 := by
  induction l generalizing t with
  | nil => rw [packICs] at h; cases h; rfl
  | cons p rest ih =>
    rw [packICs] at h
    obtain ⟨x, hx, h⟩ := exceptBind_eq_ok h
    obtain ⟨y, hy, h⟩ := exceptBind_eq_ok h
    obtain ⟨r, hr, h⟩ := exceptBind_eq_ok h
    cases h
    rw [strLength_append, strLength_append, getEnc_ok_length hx,
      getEnc_ok_length hy, ih hr, List.length_cons]
    ring

theorem packICs_ok_ne_x {l : List (List String)} {t : String}
    (h : packICs l = .ok t) : ∀ c ∈ t.data, c ≠ 'x' := by
  induction l generalizing t with
  | nil =>
    rw [packICs] at h
    cases h
    intro c hc
    cases hc
  | cons p rest ih =>
    rw [packICs] at h
    obtain ⟨x, hx, h⟩ := exceptBind_eq_ok h
    obtain ⟨y, hy, h⟩ := exceptBind_eq_ok h
    obtain ⟨r, hr, h⟩ := exceptBind_eq_ok h
    cases h
    intro c hc
    rw [strData_append, strData_append] at hc
    rcases List.mem_append.mp hc with hc' | hcr
    · rcases List.mem_append.mp hc' with hcx | hcy
      · exact getEnc_ok_ne_x hx c hcx
      · exact getEnc_ok_ne_x hy c hcy
    · exact ih hr c hcr

/-! ### Shape of a successful to_packed -/

theorem to_packed_ok_shape {vk : VerificationKey} {s : String}
    (h : vk.to_packed = .ok s) :
    ∃ t, s = "0x" ++ t ∧ t.length = (14 + 1 + 2 * vk.ic.length) * 64 ∧
      ∀ c ∈ t.data, c ≠ 'x' := by
  rw [VerificationKey.to_packed] at h
  obtain ⟨a0, ha0, h⟩ := exceptBind_eq_ok h
  obtain ⟨a1, ha1, h⟩ := exceptBind_eq_ok h
  obtain ⟨b01, hb01, h⟩ := exceptBind_eq_ok h
  obtain ⟨b00, hb00, h⟩ := exceptBind_eq_ok h
  obtain ⟨b11, hb11, h⟩ := exceptBind_eq_ok h
  obtain ⟨b10, hb10, h⟩ := exceptBind_eq_ok h
  obtain ⟨g01, hg01, h⟩ := exceptBind_eq_ok h
  obtain ⟨g00, hg00, h⟩ := exceptBind_eq_ok h
  obtain ⟨g11, hg11, h⟩ := exceptBind_eq_ok h
  obtain ⟨g10, hg10, h⟩ := exceptBind_eq_ok h
  obtain ⟨d01, hd01, h⟩ := exceptBind_eq_ok h
  obtain ⟨d00, hd00, h⟩ := exceptBind_eq_ok h
  obtain ⟨d11, hd11, h⟩ := exceptBind_eq_ok h
  obtain ⟨d10, hd10, h⟩ := exceptBind_eq_ok h
  obtain ⟨cnt, hcnt, h⟩ := exceptBind_eq_ok h
  obtain ⟨tl, htl, h⟩ := exceptBind_eq_ok h
  have hs : _ = s := Except.ok.inj h
  subst hs
  refine ⟨a0 ++ (a1 ++ (b01 ++ (b00 ++ (b11 ++ (b10 ++ (g01 ++ (g00 ++ (g11
    ++ (g10 ++ (d01 ++ (d00 ++ (d11 ++ (d10 ++ (cnt ++ tl)))))))))))))),
    ?_, ?_, ?_⟩
  · simp only [strAppend_assoc]
  · have l1 := getEnc_ok_length ha0
    have l2 := getEnc_ok_length ha1
    have l3 := getEnc2_ok_length hb01
    have l4 := getEnc2_ok_length hb00
    have l5 := getEnc2_ok_length hb11
    have l6 := getEnc2_ok_length hb10
    have l7 := getEnc2_ok_length hg01
    have l8 := getEnc2_ok_length hg00
    have l9 := getEnc2_ok_length hg11
    have l10 := getEnc2_ok_length hg10
    have l11 := getEnc2_ok_length hd01
    have l12 := getEnc2_ok_length hd00
    have l13 := getEnc2_ok_length hd11
    have l14 := getEnc2_ok_length hd10
    have l15 := encode_ok_length hcnt
    have l16 := packICs_ok_length htl
    simp only [strLength_append]
    rw [l1, l2, l3, l4, l5, l6, l7, l8, l9, l10, l11, l12, l13, l14, l15, l16]
    ring
  · intro c hc
    simp only [strData_append, List.mem_append] at hc
    rcases hc with hc | hc | hc | hc | hc | hc | hc | hc | hc | hc | hc | hc
      | hc | hc | hc | hc
    · exact getEnc_ok_ne_x ha0 c hc
    · exact getEnc_ok_ne_x ha1 c hc
    · exact getEnc2_ok_ne_x hb01 c hc
    · exact getEnc2_ok_ne_x hb00 c hc
    · exact getEnc2_ok_ne_x hb11 c hc
    · exact getEnc2_ok_ne_x hb10 c hc
    · exact getEnc2_ok_ne_x hg01 c hc
    · exact getEnc2_ok_ne_x hg00 c hc
    · exact getEnc2_ok_ne_x hg11 c hc
    · exact getEnc2_ok_ne_x hg10 c hc
    · exact getEnc2_ok_ne_x hd01 c hc
    · exact getEnc2_ok_ne_x hd00 c hc
    · exact getEnc2_ok_ne_x hd11 c hc
    · exact getEnc2_ok_ne_x hd10 c hc
    · exact encode_ok_ne_x hcnt c hc
    · exact packICs_ok_ne_x htl c hc

/-! ### Every failure of the source is a panic -/

theorem encode_error_panic {s : String} {e : RErr}
    (h : encode_num s = .error e) : ∃ msg, e = .panic msg := by
  rw [encode_num] at h
  cases hp : parseDecimal s with
  | none =>
    rw [hp] at h
    exact ⟨_, (Except.error.inj h).symm⟩
  | some v =>
    rw [hp] at h
    simp only at h
    by_cases h64 : (intToHexString v).length = 64
    · rw [if_pos h64] at h
      cases h
    · rw [if_neg h64] at h
      by_cases hgt : (intToHexString v).length > 64
      · rw [if_pos hgt] at h
        exact ⟨_, (Except.error.inj h).symm⟩
      · rw [if_neg hgt] at h
        cases h

theorem vecIdx_error_panic {α : Type} {xs : List α} {i : Nat} {e : RErr}
    (h : vecIdx xs i = .error e) : ∃ msg, e = .panic msg := by
  rw [vecIdx] at h
  cases hg : xs.get? i with
  | none =>
    rw [hg] at h
    exact ⟨_, (Except.error.inj h).symm⟩
  | some x =>
    rw [hg] at h
    cases h

theorem getEnc_error_panic {xs : List String} {i : Nat} {e : RErr}
    (h : getEnc xs i = .error e) : ∃ msg, e = .panic msg := by
  rw [getEnc] at h
  rcases exceptBind_eq_error h with h | ⟨a, _, h⟩
  · exact vecIdx_error_panic h
  · exact encode_error_panic h

theorem getEnc2_error_panic {xs : List (List String)} {i j : Nat} {e : RErr}
    (h : getEnc2 xs i j = .error e) : ∃ msg, e = .panic msg := by
  rw [getEnc2] at h
  rcases exceptBind_eq_error h with h | ⟨row, _, h⟩
  · exact vecIdx_error_panic h
  · exact getEnc_error_panic h

theorem packICs_error_panic {l : List (List String)} {e : RErr}
    (h : packICs l = .error e) : ∃ msg, e = .panic msg := by
  induction l with
  | nil =>
    rw [packICs] at h
    cases h
  | cons p rest ih =>
    rw [packICs] at h
    rcases exceptBind_eq_error h with h | ⟨x, _, h⟩
    · exact getEnc_error_panic h
    rcases exceptBind_eq_error h with h | ⟨y, _, h⟩
    · exact getEnc_error_panic h
    rcases exceptBind_eq_error h with h | ⟨r, _, h⟩
    · exact ih h
    · cases h

theorem to_packed_error_panic {vk : VerificationKey} {e : RErr}
    (h : vk.to_packed = .error e) : ∃ msg, e = .panic msg := by
  rw [VerificationKey.to_packed] at h
  rcases exceptBind_eq_error h with h | ⟨a0, _, h⟩
  · exact getEnc_error_panic h
  rcases exceptBind_eq_error h with h | ⟨a1, _, h⟩
  · exact getEnc_error_panic h
  rcases exceptBind_eq_error h with h | ⟨b01, _, h⟩
  · exact getEnc2_error_panic h
  rcases exceptBind_eq_error h with h | ⟨b00, _, h⟩
  · exact getEnc2_error_panic h
  rcases exceptBind_eq_error h with h | ⟨b11, _, h⟩
  · exact getEnc2_error_panic h
  rcases exceptBind_eq_error h with h | ⟨b10, _, h⟩
  · exact getEnc2_error_panic h
  rcases exceptBind_eq_error h with h | ⟨g01, _, h⟩
  · exact getEnc2_error_panic h
  rcases exceptBind_eq_error h with h | ⟨g00, _, h⟩
  · exact getEnc2_error_panic h
  rcases exceptBind_eq_error h with h | ⟨g11, _, h⟩
  · exact getEnc2_error_panic h
  rcases exceptBind_eq_error h with h | ⟨g10, _, h⟩
  · exact getEnc2_error_panic h
  rcases exceptBind_eq_error h with h | ⟨d01, _, h⟩
  · exact getEnc2_error_panic h
  rcases exceptBind_eq_error h with h | ⟨d00, _, h⟩
  · exact getEnc2_error_panic h
  rcases exceptBind_eq_error h with h | ⟨d11, _, h⟩
  · exact getEnc2_error_panic h
  rcases exceptBind_eq_error h with h | ⟨d10, _, h⟩
  · exact getEnc2_error_panic h
  rcases exceptBind_eq_error h with h | ⟨cnt, _, h⟩
  · exact encode_error_panic h
  rcases exceptBind_eq_error h with h | ⟨tl, _, h⟩
  · exact packICs_error_panic h
  · cases h

theorem lt_length_of_get? {α : Type} {ys : List α} {ix : Nat} {z : α}
    (h : ys.get? ix = some z) : ix < ys.length := by
  by_contra hlt
  push_neg at hlt
  rw [List.get?_eq_none.mpr hlt] at h
  cases h

/-- A G2 field on which both row accesses `[0][1]` and `[1][1]` succeed has
the full 2×2 shape the packer requires. -/
theorem g2Shaped_of_enc {xs : List (List String)} {t1 t2 : String}
    (h01 : getEnc2 xs 0 1 = .ok t1) (h11 : getEnc2 xs 1 1 = .ok t2) :
    g2Shaped xs := by
  obtain ⟨r0, s0, hx0, hr0, _⟩ := getEnc2_ok_inv h01
  obtain ⟨r1, s1, hx1, hr1, _⟩ := getEnc2_ok_inv h11
  match xs, hx0, hx1 with
  | q0 :: q1 :: rest, hx0, hx1 =>
    have e0 : q0 = r0 := Option.some.inj hx0
    have e1 : q1 = r1 := Option.some.inj hx1
    have l0 : 1 < r0.length := lt_length_of_get? hr0
    have l1 : 1 < r1.length := lt_length_of_get? hr1
    show 2 ≤ q0.length ∧ 2 ≤ q1.length
    rw [e0, e1]
    omega

/-- A key that packs successfully has well-shaped alpha1, beta2, gamma2 and
delta2: every index the packer reads exists. -/
theorem to_packed_ok_shaped {vk : VerificationKey} {s : String}
    (h : vk.to_packed = .ok s) :
    2 ≤ vk.vk_alpha_1.length ∧ g2Shaped vk.vk_beta_2 ∧
      g2Shaped vk.vk_gamma_2 ∧ g2Shaped vk.vk_delta_2 := by
  rw [VerificationKey.to_packed] at h
  obtain ⟨a0, ha0, h⟩ := exceptBind_eq_ok h
  obtain ⟨a1, ha1, h⟩ := exceptBind_eq_ok h
  obtain ⟨b01, hb01, h⟩ := exceptBind_eq_ok h
  obtain ⟨b00, hb00, h⟩ := exceptBind_eq_ok h
  obtain ⟨b11, hb11, h⟩ := exceptBind_eq_ok h
  obtain ⟨b10, hb10, h⟩ := exceptBind_eq_ok h
  obtain ⟨g01, hg01, h⟩ := exceptBind_eq_ok h
  obtain ⟨g00, hg00, h⟩ := exceptBind_eq_ok h
  obtain ⟨g11, hg11, h⟩ := exceptBind_eq_ok h
  obtain ⟨g10, hg10, h⟩ := exceptBind_eq_ok h
  obtain ⟨d01, hd01, h⟩ := exceptBind_eq_ok h
  obtain ⟨d00, hd00, h⟩ := exceptBind_eq_ok h
  obtain ⟨d11, hd11, h⟩ := exceptBind_eq_ok h
  obtain ⟨sa, hga, _⟩ := getEnc_ok_inv ha1
  exact ⟨lt_length_of_get? hga, g2Shaped_of_enc hb01 hb11,
    g2Shaped_of_enc hg01 hg11, g2Shaped_of_enc hd01 hd11⟩

/-! ### The claims -/

set_option maxRecDepth 100000

/-- C2: for every ic_count `n`, the layout satisfies: `ic_byte_span = n * 0x40`;
`pairing_base = 0xC0 + n * 0x40`; the thirteen pairing input offsets, indexed
0 to 12, equal `pairing_base` plus the fixed relative bases
`{0x00, 0x20, 0x40, 0x60, 0x80, 0xA0, 0xC0, 0x180, 0x1A0, 0x1C0, 0x240, 0x260,
0x280}` in that order; `input_ptr = pairing_base + 0x300`;
`pub_input_len_ptr = input_ptr + 0x100`; `pub_input_ptr = input_ptr + 0x120`;
the eight public-input slots for `i` in 0..8 equal `input_ptr + i * 0x20`; and
for `n = 1`: `pairing_base = 0x100`, `input_ptr = 0x400`,
`pub_input_len_ptr = 0x500`, `pub_input_ptr = 0x520`, pairing offset 0 =
`0x100`, pairing offset 6 = `0x1C0`. -/
theorem claim_C2 (n : Nat) :
    ic_byte_span n = n * 0x40 ∧
    pairing_input_offset n = 0xC0 + n * 0x40 ∧
    pairingOffsets n = [pairing_input_offset n + 0x00, pairing_input_offset n + 0x20,
      pairing_input_offset n + 0x40, pairing_input_offset n + 0x60,
      pairing_input_offset n + 0x80, pairing_input_offset n + 0xA0,
      pairing_input_offset n + 0xC0, pairing_input_offset n + 0x180,
      pairing_input_offset n + 0x1A0, pairing_input_offset n + 0x1C0,
      pairing_input_offset n + 0x240, pairing_input_offset n + 0x260,
      pairing_input_offset n + 0x280] ∧
    input_ptr n = pairing_input_offset n + 0x300 ∧
    pub_input_len_ptr n = input_ptr n + 0x100 ∧
    pub_input_ptr n = input_ptr n + 0x120 ∧
    inputSlots n = [input_ptr n + 0 * 0x20, input_ptr n + 1 * 0x20,
      input_ptr n + 2 * 0x20, input_ptr n + 3 * 0x20, input_ptr n + 4 * 0x20,
      input_ptr n + 5 * 0x20, input_ptr n + 6 * 0x20, input_ptr n + 7 * 0x20] ∧
    pairing_input_offset 1 = 0x100 ∧ input_ptr 1 = 0x400 ∧
    pub_input_len_ptr 1 = 0x500 ∧ pub_input_ptr 1 = 0x520 ∧
    (pairingOffsets 1).get? 0 = some 0x100 ∧
    (pairingOffsets 1).get? 6 = some 0x1C0 := by
  refine ⟨Eq.refl _, rfl, Eq.refl _, rfl, Eq.refl _, rfl, Eq.refl _, ?_⟩
  decide

/-- C9: the packed output depends only on alpha1, beta2, gamma2, delta2 and
the IC sequence; two keys differing arbitrarily in `n_public` and/or
`vk_alphabeta_12` pack identically. -/
theorem claim_C9 (vk1 vk2 : VerificationKey)
    (ha : vk1.vk_alpha_1 = vk2.vk_alpha_1)
    (hb : vk1.vk_beta_2 = vk2.vk_beta_2)
    (hg : vk1.vk_gamma_2 = vk2.vk_gamma_2)
    (hd : vk1.vk_delta_2 = vk2.vk_delta_2)
    (hic : vk1.ic = vk2.ic) :
    vk1.to_packed = vk2.to_packed := by
  rw [VerificationKey.to_packed, VerificationKey.to_packed, ha, hb, hg, hd, hic]

/-- Witness for C9: two concrete keys that agree on the five packed fields but
differ in `n_public` (0 vs 42) and `vk_alphabeta_12` ([] vs a non-empty
nest) produce the same packed result. -/
theorem claim_C9_witness :
    vkC9A.vk_alpha_1 = vkC9B.vk_alpha_1 ∧ vkC9A.vk_beta_2 = vkC9B.vk_beta_2 ∧
    vkC9A.vk_gamma_2 = vkC9B.vk_gamma_2 ∧ vkC9A.vk_delta_2 = vkC9B.vk_delta_2 ∧
    vkC9A.ic = vkC9B.ic ∧ vkC9A.n_public ≠ vkC9B.n_public ∧
    vkC9A.vk_alphabeta_12 ≠ vkC9B.vk_alphabeta_12 ∧
    vkC9A.to_packed = vkC9B.to_packed := by
  have hn : vkC9A.n_public ≠ vkC9B.n_public := by decide
  have hab : vkC9A.vk_alphabeta_12 ≠ vkC9B.vk_alphabeta_12 := by decide
  exact ⟨rfl, rfl, rfl, rfl, rfl, hn, hab,
    claim_C9 vkC9A vkC9B rfl rfl rfl rfl rfl⟩

/-- C1: for every verification key whose fields have the expected shapes
(each required index exists and encodes), to_packed returns a single "0x"
prefix followed by the 64-hex encodings of, in exactly this order:
alpha1.x, alpha1.y; then for each of beta2, gamma2, delta2, row0 imaginary
(index 1) before row0 real (index 0), then row1 imaginary before row1 real;
then the IC count encoded as a decimal string through the same encoder;
then, for each IC point in sequence order, x then y (the final conjunct
pins the per-point order inside the IC segment). -/
theorem claim_C1 (vk : VerificationKey)
    (a0 a1 b01 b00 b11 b10 g01 g00 g11 g10 d01 d00 d11 d10 cnt tl : String)
    (ha0 : getEnc vk.vk_alpha_1 0 = .ok a0)
    (ha1 : getEnc vk.vk_alpha_1 1 = .ok a1)
    (hb01 : getEnc2 vk.vk_beta_2 0 1 = .ok b01)
    (hb00 : getEnc2 vk.vk_beta_2 0 0 = .ok b00)
    (hb11 : getEnc2 vk.vk_beta_2 1 1 = .ok b11)
    (hb10 : getEnc2 vk.vk_beta_2 1 0 = .ok b10)
    (hg01 : getEnc2 vk.vk_gamma_2 0 1 = .ok g01)
    (hg00 : getEnc2 vk.vk_gamma_2 0 0 = .ok g00)
    (hg11 : getEnc2 vk.vk_gamma_2 1 1 = .ok g11)
    (hg10 : getEnc2 vk.vk_gamma_2 1 0 = .ok g10)
    (hd01 : getEnc2 vk.vk_delta_2 0 1 = .ok d01)
    (hd00 : getEnc2 vk.vk_delta_2 0 0 = .ok d00)
    (hd11 : getEnc2 vk.vk_delta_2 1 1 = .ok d11)
    (hd10 : getEnc2 vk.vk_delta_2 1 0 = .ok d10)
    (hcnt : encode_num (natToDec vk.ic.length) = .ok cnt)
    (htl : packICs vk.ic = .ok tl) :
    vk.to_packed = .ok ("0x" ++ a0 ++ a1 ++ b01 ++ b00 ++ b11 ++ b10 ++ g01
      ++ g00 ++ g11 ++ g10 ++ d01 ++ d00 ++ d11 ++ d10 ++ cnt ++ tl) ∧
    ∀ (p : List String) (ps : List (List String)) (x y r : String),
      getEnc p 0 = .ok x → getEnc p 1 = .ok y → packICs ps = .ok r →
        packICs (p :: ps) = .ok (x ++ y ++ r) := by
  constructor
  · rw [VerificationKey.to_packed, ha0, exceptBind_ok, ha1, exceptBind_ok,
      hb01, exceptBind_ok, hb00, exceptBind_ok, hb11, exceptBind_ok,
      hb10, exceptBind_ok, hg01, exceptBind_ok, hg00, exceptBind_ok,
      hg11, exceptBind_ok, hg10, exceptBind_ok, hd01, exceptBind_ok,
      hd00, exceptBind_ok, hd11, exceptBind_ok, hd10, exceptBind_ok,
      hcnt, exceptBind_ok, htl, exceptBind_ok]
  · intro p ps x y r hx hy hr
    rw [packICs, hx, exceptBind_ok, hy, exceptBind_ok, hr, exceptBind_ok]

/-- Witness for C1 at the concrete key `vkC1W` (all elements "1", one IC
point): every hypothesis evaluates, and the packed string is the expected
concatenation. -/
theorem claim_C1_witness :
    getEnc vkC1W.vk_alpha_1 0 = .ok encOne ∧
    getEnc vkC1W.vk_alpha_1 1 = .ok encOne ∧
    getEnc2 vkC1W.vk_beta_2 0 1 = .ok encOne ∧
    getEnc2 vkC1W.vk_beta_2 0 0 = .ok encOne ∧
    getEnc2 vkC1W.vk_beta_2 1 1 = .ok encOne ∧
    getEnc2 vkC1W.vk_beta_2 1 0 = .ok encOne ∧
    getEnc2 vkC1W.vk_gamma_2 0 1 = .ok encOne ∧
    getEnc2 vkC1W.vk_gamma_2 0 0 = .ok encOne ∧
    getEnc2 vkC1W.vk_gamma_2 1 1 = .ok encOne ∧
    getEnc2 vkC1W.vk_gamma_2 1 0 = .ok encOne ∧
    getEnc2 vkC1W.vk_delta_2 0 1 = .ok encOne ∧
    getEnc2 vkC1W.vk_delta_2 0 0 = .ok encOne ∧
    getEnc2 vkC1W.vk_delta_2 1 1 = .ok encOne ∧
    getEnc2 vkC1W.vk_delta_2 1 0 = .ok encOne ∧
    encode_num (natToDec vkC1W.ic.length) = .ok encOne ∧
    packICs vkC1W.ic = .ok (encOne ++ encOne) ∧
    (vkC1W.to_packed = .ok ("0x" ++ encOne ++ encOne ++ encOne ++ encOne
        ++ encOne ++ encOne ++ encOne ++ encOne ++ encOne ++ encOne ++ encOne
        ++ encOne ++ encOne ++ encOne ++ encOne ++ (encOne ++ encOne)) ∧
      ∀ (p : List String) (ps : List (List String)) (x y r : String),
        getEnc p 0 = .ok x → getEnc p 1 = .ok y → packICs ps = .ok r →
          packICs (p :: ps) = .ok (x ++ y ++ r)) := by
  have wa0 : getEnc vkC1W.vk_alpha_1 0 = .ok encOne := by decide
  have wa1 : getEnc vkC1W.vk_alpha_1 1 = .ok encOne := by decide
  have wb01 : getEnc2 vkC1W.vk_beta_2 0 1 = .ok encOne := by decide
  have wb00 : getEnc2 vkC1W.vk_beta_2 0 0 = .ok encOne := by decide
  have wb11 : getEnc2 vkC1W.vk_beta_2 1 1 = .ok encOne := by decide
  have wb10 : getEnc2 vkC1W.vk_beta_2 1 0 = .ok encOne := by decide
  have wg01 : getEnc2 vkC1W.vk_gamma_2 0 1 = .ok encOne := by decide
  have wg00 : getEnc2 vkC1W.vk_gamma_2 0 0 = .ok encOne := by decide
  have wg11 : getEnc2 vkC1W.vk_gamma_2 1 1 = .ok encOne := by decide
  have wg10 : getEnc2 vkC1W.vk_gamma_2 1 0 = .ok encOne := by decide
  have wd01 : getEnc2 vkC1W.vk_delta_2 0 1 = .ok encOne := by decide
  have wd00 : getEnc2 vkC1W.vk_delta_2 0 0 = .ok encOne := by decide
  have wd11 : getEnc2 vkC1W.vk_delta_2 1 1 = .ok encOne := by decide
  have wd10 : getEnc2 vkC1W.vk_delta_2 1 0 = .ok encOne := by decide
  have wcnt : encode_num (natToDec vkC1W.ic.length) = .ok encOne := by decide
  have wtl : packICs vkC1W.ic = .ok (encOne ++ encOne) := by decide
  exact ⟨wa0, wa1, wb01, wb00, wb11, wb10, wg01, wg00, wg11, wg10, wd01,
    wd00, wd11, wd10, wcnt, wtl,
    claim_C1 vkC1W encOne encOne encOne encOne encOne encOne encOne encOne
      encOne encOne encOne encOne encOne encOne encOne (encOne ++ encOne)
      wa0 wa1 wb01 wb00 wb11 wb10 wg01 wg00 wg11 wg10 wd01 wd00 wd11 wd10
      wcnt wtl⟩

/-- C3: for every decimal string representing an integer in [0, 2^256),
encode_num succeeds with exactly 64 lowercase hexadecimal characters
(left-padded with '0'), and reading that string back in base 16 yields the
original value. -/
theorem claim_C3 (s : String) (v : Int) (hp : parseDecimal s = some v)
    (h0 : 0 ≤ v) (hlt : v < 2 ^ 256) :
    ∃ t, encode_num s = .ok t ∧ t.length = 64 ∧
      (∀ c ∈ t.data, isLowerHexDigit c = true) ∧
      (hexStringToNat t : Int) = v := by
  have hlen := intToHexString_length_le h0 hlt
  have henc := encode_num_of_le hp hlen
  refine ⟨_, henc, encode_ok_length henc, ?_, ?_⟩
  · intro c hc
    have hc' : c ∈ List.replicate (64 - (intToHexString v).length) '0'
        ++ (intToHexString v).data := hc
    rcases List.mem_append.mp hc' with hz | hm
    · rw [List.eq_of_mem_replicate hz]
      decide
    · rw [intToHexString_nonneg h0] at hm
      rcases natToHex_chars _ c hm with rfl | ⟨d, hd, rfl⟩
      · decide
      · exact isLowerHexDigit_digitChar d hd
  · have hv : hexStringToNat (String.mk
        (List.replicate (64 - (intToHexString v).length) '0'
          ++ (intToHexString v).data)) = v.natAbs := by
      rw [hexStringToNat]
      show List.foldl _ 0 (List.replicate (64 - (intToHexString v).length) '0'
        ++ (intToHexString v).data) = v.natAbs
      rw [List.foldl_append, foldl_hex_replicate, Nat.zero_mul,
        intToHexString_nonneg h0]
      exact hexStringToNat_natToHex v.natAbs
    rw [hv]
    exact Int.natAbs_of_nonneg h0

/-- Witness for C3 at the decimal string "255": the encoding is 62 zeros
followed by "ff" and it reads back to 255. -/
theorem claim_C3_witness :
    parseDecimal "255" = some 255 ∧ (0 : Int) ≤ 255 ∧ (255 : Int) < 2 ^ 256 ∧
    ∃ t, encode_num "255" = .ok t ∧ t.length = 64 ∧
      (∀ c ∈ t.data, isLowerHexDigit c = true) ∧
      (hexStringToNat t : Int) = 255 := by
  have hp : parseDecimal "255" = some 255 := by decide
  have h0 : (0 : Int) ≤ 255 := by decide
  have hlt : (255 : Int) < 2 ^ 256 := by decide
  exact ⟨hp, h0, hlt, claim_C3 "255" 255 hp h0 hlt⟩

/-- C5: whenever to_packed succeeds on a key (which requires the expected
shapes), the result is a single "0x" prefix followed by a payload of
exactly (14 + 1 + 2*n) * 64 hex characters, where n is the IC list length;
the payload contains no 'x', hence no per-segment "0x" prefixes. -/
theorem claim_C5 (vk : VerificationKey) (s : String)
    (h : vk.to_packed = .ok s) :
    s.length = 2 + (14 + 1 + 2 * vk.ic.length) * 64 ∧
    ∃ t, s = "0x" ++ t ∧ t.length = (14 + 1 + 2 * vk.ic.length) * 64 ∧
      ¬ 'x' ∈ t.data := by
  obtain ⟨t, rfl, hlen, hchars⟩ := to_packed_ok_shape h
  refine ⟨?_, t, rfl, hlen, fun hx => hchars 'x' hx rfl⟩
  rw [strLength_append, hlen]
  rfl

/-- Witness for C5 at the concrete key `vkC5W` (all elements "0", empty IC
list): the packed string is "0x" followed by 960 zeros. -/
theorem claim_C5_witness :
    vkC5W.to_packed = .ok ("0x" ++ String.mk (List.replicate 960 '0')) ∧
    (("0x" ++ String.mk (List.replicate 960 '0')).length
        = 2 + (14 + 1 + 2 * vkC5W.ic.length) * 64 ∧
      ∃ t, "0x" ++ String.mk (List.replicate 960 '0') = "0x" ++ t ∧
        t.length = (14 + 1 + 2 * vkC5W.ic.length) * 64 ∧ ¬ 'x' ∈ t.data) := by
  have hok : vkC5W.to_packed
      = .ok ("0x" ++ String.mk (List.replicate 960 '0')) := by decide
  exact ⟨hok, claim_C5 vkC5W ("0x" ++ String.mk (List.replicate 960 '0')) hok⟩

/-- Counterexample for C6: a key whose IC list has length 1 packs to a
string of total length 1090, not 1026 as the claim states (the claim's
"16 elements" miscounts: there are 14 fixed fields + 1 count field + 2 IC
coordinates = 17 elements of 64 hex characters each). -/
theorem claim_C6_counterexample :
    vkC6W.ic.length = 1 ∧
    Except.map String.length vkC6W.to_packed = .ok 1090 ∧
    Except.map String.length vkC6W.to_packed ≠ .ok 1026 := by
  decide

/-- C6 amended: packing a verification key whose ic list has length 1
produces "0x" followed by 17*64 = 1088 hex characters, a string of total
length 1090 including the prefix. -/
theorem claim_C6_amended (vk : VerificationKey) (s : String)
    (h : vk.to_packed = .ok s) (h1 : vk.ic.length = 1) :
    s.length = 1090 ∧ ∃ t, s = "0x" ++ t ∧ t.length = 1088 := by
  obtain ⟨t, rfl, hlen, _⟩ := to_packed_ok_shape h
  rw [h1] at hlen
  norm_num at hlen
  refine ⟨?_, t, rfl, hlen⟩
  rw [strLength_append, hlen]
  rfl

/-- Witness for C6 (amended) at the concrete key `vkC6W`: the packed string
is "0x", then 14*64 + 63 zeros, then "1" (the count), then 128 zeros. -/
theorem claim_C6_witness :
    vkC6W.to_packed = .ok ("0x" ++ String.mk (List.replicate 959 '0') ++ "1"
        ++ String.mk (List.replicate 128 '0')) ∧
    vkC6W.ic.length = 1 ∧
    (("0x" ++ String.mk (List.replicate 959 '0') ++ "1"
        ++ String.mk (List.replicate 128 '0')).length = 1090 ∧
      ∃ t, "0x" ++ String.mk (List.replicate 959 '0') ++ "1"
          ++ String.mk (List.replicate 128 '0') = "0x" ++ t ∧
        t.length = 1088) := by
  have hok : vkC6W.to_packed = .ok ("0x" ++ String.mk (List.replicate 959 '0')
      ++ "1" ++ String.mk (List.replicate 128 '0')) := by decide
  have hone : vkC6W.ic.length = 1 := by decide
  exact ⟨hok, hone, claim_C6_amended vkC6W _ hok hone⟩

/-- Counterexample for C4: on the decimal rendering of 2^256 (the smallest
value needing more than 64 hex digits) encode_num does not fail with the
spec's FieldElementOverflow error; it panics (the unguarded usize
subtraction in the padding step). -/
theorem claim_C4_counterexample :
    encode_num decTwo256 = .error (.panic "attempt to subtract with overflow") ∧
    encode_num decTwo256 ≠ .error RErr.fieldElementOverflow := by
  decide

/-- C4 amended: for every decimal string whose value is at least 2^256
(i.e. needs more than 64 hex digits), encode_num panics in the padding
subtraction; it never truncates and never returns a result. -/
theorem claim_C4_amended (s : String) (v : Int) (hp : parseDecimal s = some v)
    (hbig : (2 : Int) ^ 256 ≤ v) :
    encode_num s = .error (.panic "attempt to subtract with overflow") ∧
    ∀ t, encode_num s ≠ .ok t := by
  have h0 : (0 : Int) ≤ v := le_trans (by positivity) hbig
  have hn : 16 ^ 64 ≤ v.natAbs := by
    rw [pow16_64]
    omega
  have hne : v.natAbs ≠ 0 := by
    have : (0 : Nat) < 16 ^ 64 := by positivity
    omega
  have hL : 65 ≤ (intToHexString v).length := by
    rw [intToHexString_nonneg h0, natToHex_length hne]
    by_contra hc
    push_neg at hc
    have h1 : v.natAbs < 16 ^ (Nat.digits 16 v.natAbs).length :=
      Nat.lt_base_pow_length_digits (by norm_num)
    have h2 : (16 : Nat) ^ (Nat.digits 16 v.natAbs).length ≤ 16 ^ 64 :=
      Nat.pow_le_pow_right (by norm_num) (by omega)
    omega
  have hfail : encode_num s
      = .error (.panic "attempt to subtract with overflow") := by
    rw [encode_num, hp]
    simp only
    rw [if_neg (by omega), if_pos (by omega)]
  exact ⟨hfail, fun t ht => by rw [hfail] at ht; cases ht⟩

/-- Witness for C4 (amended) at the decimal rendering of 2^256. -/
theorem claim_C4_witness :
    parseDecimal decTwo256 = some ((2 : Int) ^ 256) ∧
    (2 : Int) ^ 256 ≤ (2 : Int) ^ 256 ∧
    (encode_num decTwo256
        = .error (.panic "attempt to subtract with overflow") ∧
      ∀ t, encode_num decTwo256 ≠ .ok t) := by
  have hp : parseDecimal decTwo256 = some ((2 : Int) ^ 256) := by decide
  exact ⟨hp, le_refl _,
    claim_C4_amended decTwo256 ((2 : Int) ^ 256) hp (le_refl _)⟩

/-- Counterexample for C7: on the non-numeric input "abc" encode_num does
not fail with the spec's MalformedFieldElement error; it panics with the
source's expect message. -/
theorem claim_C7_counterexample :
    encode_num "abc" = .error (.panic "Failed to parse verification key.") ∧
    encode_num "abc" ≠ .error RErr.malformedFieldElement := by
  decide

/-- C7 amended: for every input string that is not a valid base-10 integer,
encode_num panics with the source's expect message "Failed to parse
verification key." (there is no recoverable MalformedFieldElement error in
the code). -/
theorem claim_C7_amended (s : String) (hp : parseDecimal s = none) :
    encode_num s = .error (.panic "Failed to parse verification key.") := by
  rw [encode_num, hp]

/-- Witness for C7 (amended) at the input "abc". -/
theorem claim_C7_witness :
    parseDecimal "abc" = none ∧
    encode_num "abc" = .error (.panic "Failed to parse verification key.") := by
  have hp : parseDecimal "abc" = none := by decide
  exact ⟨hp, claim_C7_amended "abc" hp⟩

/-- Counterexample for C8: on a key with all collections empty, to_packed
does not fail with the spec's EmptyVerificationKey error; it hits the
out-of-bounds index panic. -/
theorem claim_C8_counterexample :
    vkC8W.to_packed = .error (.panic "index out of bounds") ∧
    vkC8W.to_packed ≠ .error RErr.emptyVerificationKey := by
  decide

/-- C8 amended: when alpha1, beta2, gamma2 or delta2 is missing a required
coordinate — alpha1 with fewer than two elements, or a G2 field without two
rows of at least two elements each — to_packed fails with a panic (from the
out-of-bounds index it eventually reaches, or from an earlier panic of the
same run): it never returns a result and never fails with an
EmptyVerificationKey error, which the code does not define or produce; for
empty alpha1 specifically the panic is the index-out-of-bounds panic. -/
theorem claim_C8_amended (vk : VerificationKey)
    (h : vk.vk_alpha_1.length < 2 ∨ ¬ g2Shaped vk.vk_beta_2 ∨
      ¬ g2Shaped vk.vk_gamma_2 ∨ ¬ g2Shaped vk.vk_delta_2) :
    (∃ msg, vk.to_packed = .error (.panic msg)) ∧
    (∀ s, vk.to_packed ≠ .ok s) ∧
    vk.to_packed ≠ .error RErr.emptyVerificationKey ∧
    (vk.vk_alpha_1 = [] →
      vk.to_packed = .error (.panic "index out of bounds")) := by
  have hno : ∀ s, vk.to_packed ≠ .ok s := by
    intro s hs
    obtain ⟨hA, hB, hG, hD⟩ := to_packed_ok_shaped hs
    rcases h with h | h | h | h
    · omega
    · exact h hB
    · exact h hG
    · exact h hD
  refine ⟨?_, hno, ?_, ?_⟩
  · cases hp : vk.to_packed with
    | ok s => exact absurd hp (hno s)
    | error e =>
      obtain ⟨msg, rfl⟩ := to_packed_error_panic hp
      exact ⟨msg, rfl⟩
  · intro he
    obtain ⟨msg, hmsg⟩ := to_packed_error_panic he
    cases hmsg
  · intro ha
    have hfirst : getEnc vk.vk_alpha_1 0
        = .error (.panic "index out of bounds") := by
      rw [ha]
      rfl
    rw [VerificationKey.to_packed, hfirst, exceptBind_error]

/-- Witness for C8 (amended) at the concrete key `vkC8P`, whose beta2 has a
single row where the packer requires two: a partially missing shape, not an
empty field. -/
theorem claim_C8_witness :
    (vkC8P.vk_alpha_1.length < 2 ∨ ¬ g2Shaped vkC8P.vk_beta_2 ∨
      ¬ g2Shaped vkC8P.vk_gamma_2 ∨ ¬ g2Shaped vkC8P.vk_delta_2) ∧
    ((∃ msg, vkC8P.to_packed = .error (.panic msg)) ∧
      (∀ s, vkC8P.to_packed ≠ .ok s) ∧
      vkC8P.to_packed ≠ .error RErr.emptyVerificationKey ∧
      (vkC8P.vk_alpha_1 = [] →
        vkC8P.to_packed = .error (.panic "index out of bounds"))) :=
  ⟨Or.inr (Or.inl (fun hfalse => hfalse)),
    claim_C8_amended vkC8P (Or.inr (Or.inl (fun hfalse => hfalse)))⟩

/-- C10: the encoder does not reject negative inputs: for every decimal
string parsing to a negative integer whose magnitude has at most 62 hex
digits, encode_num returns without error a 64-character string that begins
with '0' padding and contains a '-' character — not a valid all-hex
encoding and not a failure. -/
theorem claim_C10 (s : String) (v : Int) (hp : parseDecimal s = some v)
    (hneg : v < 0) (hmag : (natDigitsRev 16 v.natAbs).length ≤ 62) :
    ∃ t, encode_num s = .ok t ∧ t.length = 64 ∧ t.data.head? = some '0' ∧
      '-' ∈ t.data ∧ ¬ (∀ c ∈ t.data, isLowerHexDigit c = true) := by
  have hne : v.natAbs ≠ 0 := Int.natAbs_ne_zero.mpr (by omega)
  have hdig : (Nat.digits 16 v.natAbs).length ≤ 62 := by
    rw [← natDigitsRev_eq (by norm_num)]
    exact hmag
  have hih : intToHexString v = "-" ++ natToHex v.natAbs := by
    rw [intToHexString, if_pos hneg]
  have hone : ("-" : String).length = 1 := rfl
  have hL : (intToHexString v).length ≤ 63 := by
    rw [hih, strLength_append, natToHex_length hne, hone]
    omega
  have henc := encode_num_of_le hp (by omega)
  have hdd : ("-" : String).data = ['-'] := rfl
  have hdash : '-' ∈ List.replicate (64 - (intToHexString v).length) '0'
      ++ (intToHexString v).data := by
    refine List.mem_append.mpr (Or.inr ?_)
    rw [hih, strData_append, hdd]
    exact List.mem_append.mpr (Or.inl (by decide))
  refine ⟨_, henc, encode_ok_length henc, ?_, hdash, ?_⟩
  · obtain ⟨m, hm⟩ : ∃ m, 64 - (intToHexString v).length = m + 1 :=
      ⟨63 - (intToHexString v).length, by omega⟩
    show (List.replicate (64 - (intToHexString v).length) '0'
      ++ (intToHexString v).data).head? = some '0'
    rw [hm, List.replicate_succ, List.cons_append]
    rfl
  · intro hall
    exact absurd (hall '-' hdash) (by decide)

/-- Witness for C10 at the input "-5": the result is 62 zeros followed by
"-5". -/
theorem claim_C10_witness :
    parseDecimal "-5" = some (-5) ∧ (-5 : Int) < 0 ∧
    (natDigitsRev 16 (-5 : Int).natAbs).length ≤ 62 ∧
    ∃ t, encode_num "-5" = .ok t ∧ t.length = 64 ∧
      t.data.head? = some '0' ∧ '-' ∈ t.data ∧
      ¬ (∀ c ∈ t.data, isLowerHexDigit c = true) := by
  have hp : parseDecimal "-5" = some (-5) := by decide
  have hneg : (-5 : Int) < 0 := by decide
  have hmag : (natDigitsRev 16 (-5 : Int).natAbs).length ≤ 62 := by decide
  exact ⟨hp, hneg, hmag, claim_C10 "-5" (-5) hp hneg hmag⟩
